import Mathlib

/-!
Verification of `treelib`'s `flex_tree` (src/include/treelib/flex_tree.hpp and
src/include/treelib/node_traits.hpp).

The pointer structure is shallowly embedded as an arena: node handles are
natural-number indices, the sentinel (header) node lives at index 0, and the
memory holds one total map per structural field.  Every structural field of a
fresh node points to the node itself, mirroring the cyclic self-pointer
initialisers `parent_M_{this}` etc. of `flex_tree_node_base__`.  Pointer
equality (`ptr == this`) becomes index equality.

Counters (`child_count_M_`, `size_M_`) are `std::size_t` in the source; they
are modelled as `Nat` with truncated subtraction.  In every state reachable by
the public API the subtrahend never exceeds the counter, so no 2^64 wraparound
occurs and the `Nat` model agrees with the machine behaviour.
-/

set_option maxRecDepth 400000

namespace Treelib

/-- The arena of nodes: one total map per member field of
`flex_tree_node_base__` (plus the stored value of `flex_tree_node__`; the
header's value entry is unused, as in the C++ where the header is
valueless). -/
@[ext]
structure Mem where
  parent : Nat → Nat
  firstChild : Nat → Nat
  lastChild : Nat → Nat
  next : Nat → Nat
  prev : Nat → Nat
  childCount : Nat → Nat
  value : Nat → Nat

/-- The initial arena: the header (index 0) self-loops, and so does every not
yet allocated slot. -/
def memInit : Mem :=
  ⟨id, id, id, id, id, fun _ => 0, fun _ => 0⟩

/-! ### Field writers -/

def wParent (m : Mem) (i v : Nat) : Mem :=
  { m with parent := Function.update m.parent i v }

def wFirst (m : Mem) (i v : Nat) : Mem :=
  { m with firstChild := Function.update m.firstChild i v }

def wLast (m : Mem) (i v : Nat) : Mem :=
  { m with lastChild := Function.update m.lastChild i v }

def wNext (m : Mem) (i v : Nat) : Mem :=
  { m with next := Function.update m.next i v }

def wPrev (m : Mem) (i v : Nat) : Mem :=
  { m with prev := Function.update m.prev i v }

def wCCInc (m : Mem) (i : Nat) : Mem :=
  { m with childCount := Function.update m.childCount i (m.childCount i + 1) }

def wCCDec (m : Mem) (i : Nat) : Mem :=
  { m with childCount := Function.update m.childCount i (m.childCount i - 1) }

/-- Allocate the node record at index `i` (models `get_node_M_`: the freshly
constructed node self-loops, has no children and carries `v`). -/
def wAlloc (m : Mem) (i v : Nat) : Mem :=
  ⟨Function.update m.parent i i, Function.update m.firstChild i i,
   Function.update m.lastChild i i, Function.update m.next i i,
   Function.update m.prev i i, Function.update m.childCount i 0,
   Function.update m.value i v⟩

/-! ### Structural predicates (`flex_tree_node_base__`) -/

/-- `is_root_M_`: `parent_M_ == this`. -/
def isRoot (m : Mem) (p : Nat) : Bool := m.parent p = p

/-- `has_next_M_`: `next_M_ != this`. -/
def hasNext (m : Mem) (p : Nat) : Bool := m.next p ≠ p

/-- `has_prev_M_`: `prev_M_ != this`. -/
def hasPrev (m : Mem) (p : Nat) : Bool := m.prev p ≠ p

/-- `has_children_M_`: `first_child_M_ != this`. -/
def hasChildren (m : Mem) (p : Nat) : Bool := m.firstChild p ≠ p

/-- `is_first_child_M_`: `!has_prev || prev->parent != parent`. -/
def isFirstChild (m : Mem) (p : Nat) : Bool :=
  !hasPrev m p || m.parent (m.prev p) ≠ m.parent p

/-- `is_last_child_M_`: `!has_next || next->parent != parent`. -/
def isLastChild (m : Mem) (p : Nat) : Bool :=
  !hasNext m p || m.parent (m.next p) ≠ m.parent p

/-- `is_only_child_M_`: `parent->child_count == 1`. -/
def isOnlyChild (m : Mem) (p : Nat) : Bool :=
  m.childCount (m.parent p) = 1

/-- `depth_M_` (the `TRL_FLEX_TREE_FAST_DEPTH`-disabled variant): walk the
parent chain counting hops until a node with `is_root_M_` is reached.  The
`while` loop is given explicit fuel; all theorems either supply enough fuel or
evaluate on concrete arenas. -/
def depthM (m : Mem) : Nat → Nat → Nat
  | 0, _ => 0
  | fuel + 1, p => if isRoot m p then 0 else depthM m fuel (m.parent p) + 1

/-- The loop of `is_child_of`: check the current ancestor, advance to its
parent, stop once the advanced ancestor is the root
(`do { if (iter == parent) return true; iter = iter->parent; } while (!iter->is_root())`). -/
def isChildOfAux (m : Mem) (q : Nat) : Nat → Nat → Bool
  | 0, _ => false
  | fuel + 1, it =>
    if it = q then true
    else if isRoot m (m.parent it) then false
    else isChildOfAux m q fuel (m.parent it)

/-- `is_child_of(parent)`: the walk starts from `this->parent_M_`. -/
def isChildOf (m : Mem) (fuel p q : Nat) : Bool :=
  isChildOfAux m q fuel (m.parent p)

/-! ### Hook / unhook bookkeeping subroutines -/

/-- `entangle_M_(next)`: `this->next = next; next->prev = this;`. -/
def entangle (m : Mem) (a b : Nat) : Mem :=
  wPrev (wNext m a b) b a

/-- `insert_between_M_(prev, next)`: `prev->entangle(this); this->entangle(next);`. -/
def insertBetween (m : Mem) (c pv nx : Nat) : Mem :=
  entangle (entangle m pv c) c nx

/-- `update_new_child_M_(parent)`: set the parent link, bump the parent's child
count. -/
def updateNewChild (m : Mem) (c q : Nat) : Mem :=
  wCCInc (wParent m c q) q

/-- `update_new_first_child_M_`. -/
def updateNewFirstChild (m : Mem) (c q : Nat) : Mem :=
  wFirst (updateNewChild m c q) q c

/-- `update_new_last_child_M_`. -/
def updateNewLastChild (m : Mem) (c q : Nat) : Mem :=
  wLast (updateNewChild m c q) q c

/-- `update_new_only_child_M_`: `parent->first = parent->last = this`. -/
def updateNewOnlyChild (m : Mem) (c q : Nat) : Mem :=
  wLast (wFirst (updateNewChild m c q) q c) q c

/-- `update_discard_notify_neighbours_M_`. -/
def updateDiscardNotifyNeighbours (m : Mem) (p : Nat) : Mem :=
  if hasNext m p ∧ hasPrev m p then entangle m (m.prev p) (m.next p)
  else if hasPrev m p then wNext m (m.prev p) (m.prev p)
  else if hasNext m p then wPrev m (m.next p) (m.next p)
  else m

/-- `update_discard_first_child_M_`. -/
def updateDiscardFirstChild (m : Mem) (p : Nat) : Mem :=
  wCCDec (wFirst m (m.parent p) (m.next p)) (m.parent p)

/-- `update_discard_last_child_M_`. -/
def updateDiscardLastChild (m : Mem) (p : Nat) : Mem :=
  wCCDec (wLast m (m.parent p) (m.prev p)) (m.parent p)

/-- `update_discard_only_child_M_`. -/
def updateDiscardOnlyChild (m : Mem) (p : Nat) : Mem :=
  wCCDec (wLast (wFirst m (m.parent p) (m.parent p)) (m.parent p) (m.parent p)) (m.parent p)

/-! ### Hooking -/

/-- `hook_as_first_child_M_(parent)`. -/
def hookAsFirstChild (m : Mem) (c q : Nat) : Mem :=
  if hasChildren m q then
    let m1 := if hasPrev m (m.firstChild q)
              then entangle m (m.prev (m.firstChild q)) c
              else m
    let m2 := entangle m1 c (m1.firstChild q)
    updateNewFirstChild m2 c q
  else
    updateNewOnlyChild m c q

/-- `hook_as_last_child_M_(parent)`. -/
def hookAsLastChild (m : Mem) (c q : Nat) : Mem :=
  if hasChildren m q then
    let m1 := if hasNext m (m.lastChild q)
              then entangle m c (m.next (m.lastChild q))
              else m
    let m2 := entangle m1 (m1.lastChild q) c
    updateNewLastChild m2 c q
  else
    updateNewOnlyChild m c q

/-- `hook_as_next_sibling_M_(prev)`. -/
def hookAsNextSibling (m : Mem) (c pv : Nat) : Mem :=
  if isLastChild m pv then
    hookAsLastChild m c (m.parent pv)
  else
    let m1 := insertBetween m c pv (m.next pv)
    updateNewChild m1 c (m1.parent pv)

/-- `hook_as_prev_sibling_M_(next)`. -/
def hookAsPrevSibling (m : Mem) (c nx : Nat) : Mem :=
  if isFirstChild m nx then
    hookAsFirstChild m c (m.parent nx)
  else
    let m1 := insertBetween m c (m.prev nx) nx
    updateNewChild m1 c (m1.parent nx)

/-! ### Unhooking -/

def unhookAsFirstChild (m : Mem) (p : Nat) : Mem :=
  updateDiscardNotifyNeighbours (updateDiscardFirstChild m p) p

def unhookAsLastChild (m : Mem) (p : Nat) : Mem :=
  updateDiscardNotifyNeighbours (updateDiscardLastChild m p) p

def unhookAsRegularChild (m : Mem) (p : Nat) : Mem :=
  updateDiscardNotifyNeighbours (wCCDec m (m.parent p)) p

def unhookAsOnlyChild (m : Mem) (p : Nat) : Mem :=
  updateDiscardNotifyNeighbours (updateDiscardOnlyChild m p) p

/-- `unhook_M_`: the four-way case split of the source. -/
def unhook (m : Mem) (p : Nat) : Mem :=
  if isOnlyChild m p then unhookAsOnlyChild m p
  else if hasPrev m p ∧ hasNext m p then unhookAsRegularChild m p
  else if hasPrev m p then unhookAsLastChild m p
  else if hasNext m p then unhookAsFirstChild m p
  else m

/-! ### Depth-first pre-order traversal
(`flex_tree_iterator__<depth_first_pre_order>::operator++`) -/

/-- The ancestor-climbing loop of `operator++`:
`while (is_last_child && !is_root) ptr = ptr->parent;`. -/
def climbLast (m : Mem) : Nat → Nat → Nat
  | 0, p => p
  | fuel + 1, p =>
    if isLastChild m p ∧ ¬ isRoot m p then climbLast m fuel (m.parent p) else p

/-- One `operator++` step of the depth-first pre-order iterator: descend into
the first child if present, otherwise climb past exhausted ancestors and step
to the next sibling. -/
def preNext (m : Mem) (fuel p : Nat) : Nat :=
  if hasChildren m p then m.firstChild p
  else m.next (climbLast m fuel p)

/-- `begin()`: the header's first child (the header itself when empty). -/
def beginIt (m : Mem) : Nat := m.firstChild 0

/-- The list of node indices visited by iterating `operator++` from `p` until
the sentinel (`end()`, whose `is_root_M_` holds) is reached. -/
def traverseFrom (m : Mem) : Nat → Nat → List Nat
  | 0, _ => []
  | fuel + 1, p =>
    if isRoot m p then []
    else p :: traverseFrom m fuel (preNext m fuel p)

/-- Full traversal of the tree: from `begin()` to `end()`. -/
def traverse (m : Mem) (fuel : Nat) : List Nat :=
  traverseFrom m fuel (beginIt m)

/-- The values visited by a full traversal. -/
def traverseValues (m : Mem) (fuel : Nat) : List Nat :=
  (traverse m fuel).map m.value

/-- Number of non-sentinel nodes reachable from the sentinel by a full
traversal. -/
def reachCount (m : Mem) (fuel : Nat) : Nat :=
  (traverse m fuel).length

/-! ### Nested-literal construction
(`flex_tree_node_initializer__` and `flex_tree_header_node__::from_initializer_list_M_`) -/

/-- A nested value/children literal: each entry is a value together with an
ordered (possibly empty) child list. -/
inductive LTree where
  | node : Nat → List LTree → LTree

mutual
/-- `total_child_node_count_M_` of an initializer: the direct child count plus
every child's own total (the constructor initialises it with `ilist.size()`
and adds each child initializer's total). -/
def totalCount : LTree → Nat
  | .node _ cs => cs.length + totalCountL cs

def totalCountL : List LTree → Nat
  | [] => 0
  | t :: ts => totalCount t + totalCountL ts
end

/-- `size_M_` computed by `from_initializer_list_M_`:
`ilist.size()` plus every top-level initializer's `total_child_node_count_M_`. -/
def literalSize (ts : List LTree) : Nat :=
  ts.length + totalCountL ts

mutual
/-- Build the node of one initializer: allocate the node, then hook every
(already fully built) child root as its last child, in list order — exactly the
loop in `flex_tree_node_initializer__`'s list constructor.  Returns the new
memory, the next free index and the node's index. -/
def buildT (m : Mem) (ctr : Nat) : LTree → Mem × Nat × Nat
  | .node v cs =>
    let r := buildF m ctr cs
    let p := r.2.1
    let m2 := wAlloc r.1 p v
    let m3 := r.2.2.foldl (fun acc c => hookAsLastChild acc c p) m2
    (m3, p + 1, p)

/-- Build a list of sibling initializers left to right, collecting their root
indices. -/
def buildF (m : Mem) (ctr : Nat) : List LTree → Mem × Nat × List Nat
  | [] => (m, ctr, [])
  | t :: ts =>
    let r1 := buildT m ctr t
    let r2 := buildF r1.1 r1.2.1 ts
    (r2.1, r2.2.1, r1.2.2 :: r2.2.2)
end

/-- The tree container: the arena plus the header's `size_M_` counter and the
next free allocation index (the allocator's book-keeping). -/
structure FTree where
  mem : Mem
  sizeM : Nat
  nextIdx : Nat

/-- `flex_tree(std::initializer_list ...)`: build every initializer, then
`from_initializer_list_M_` hooks each top-level root as the header's last child
in list order and sets `size_M_`. -/
def fromLiteral (ts : List LTree) : FTree :=
  let r := buildF memInit 1 ts
  let m := r.2.2.foldl (fun acc c => hookAsLastChild acc c 0) r.1
  ⟨m, literalSize ts, r.2.1⟩

/-! ### Tree-container operations (`flex_tree`) -/

/-- The error signalled by `throw std::invalid_argument` / `std::logic_error`
(the spec's `PreconditionViolation`). -/
inductive TreeError where
  | precondition
deriving DecidableEq, Repr

/-- `prepend(where, value)`: allocate one node, `hook_as_first_child`,
`++size_M_`; returns the tree and an iterator to the new node.  No
precondition check — the sentinel is a legal target. -/
def prependOp (t : FTree) (w v : Nat) : FTree × Nat :=
  let f := t.nextIdx
  let m1 := hookAsFirstChild (wAlloc t.mem f v) f w
  (⟨m1, t.sizeM + 1, f + 1⟩, f)

/-- `append(where, value)`: allocate one node, `hook_as_last_child`,
`++size_M_`.  No precondition check — the sentinel is a legal target. -/
def appendOp (t : FTree) (w v : Nat) : FTree × Nat :=
  let f := t.nextIdx
  let m1 := hookAsLastChild (wAlloc t.mem f v) f w
  (⟨m1, t.sizeM + 1, f + 1⟩, f)

/-- `insert_after(where, value)`: rejects the sentinel, then
`hook_as_next_sibling`, `++size_M_`. -/
def insertAfterOp (t : FTree) (w v : Nat) : Except TreeError (FTree × Nat) :=
  if isRoot t.mem w then .error .precondition
  else
    let f := t.nextIdx
    let m1 := hookAsNextSibling (wAlloc t.mem f v) f w
    .ok (⟨m1, t.sizeM + 1, f + 1⟩, f)

/-- `insert_before(where, value)`: rejects the sentinel, then
`hook_as_prev_sibling`, `++size_M_`. -/
def insertBeforeOp (t : FTree) (w v : Nat) : Except TreeError (FTree × Nat) :=
  if isRoot t.mem w then .error .precondition
  else
    let f := t.nextIdx
    let m1 := hookAsPrevSibling (wAlloc t.mem f v) f w
    .ok (⟨m1, t.sizeM + 1, f + 1⟩, f)

/-- `splice_append(where, src)`: checks, in source order, `src` root, `where`
`is_child_of` `src`, `where == src`; then `unhook` + `hook_as_last_child`.
`size_M_` is not touched and nothing is allocated. -/
def spliceAppendOp (t : FTree) (fuel w s : Nat) : Except TreeError FTree :=
  if isRoot t.mem s then .error .precondition
  else if isChildOf t.mem fuel w s then .error .precondition
  else if w = s then .error .precondition
  else .ok ⟨hookAsLastChild (unhook t.mem s) s w, t.sizeM, t.nextIdx⟩

/-- `splice_prepend(where, src)`. -/
def splicePrependOp (t : FTree) (fuel w s : Nat) : Except TreeError FTree :=
  if isRoot t.mem s then .error .precondition
  else if isChildOf t.mem fuel w s then .error .precondition
  else if w = s then .error .precondition
  else .ok ⟨hookAsFirstChild (unhook t.mem s) s w, t.sizeM, t.nextIdx⟩

/-- `splice_after(where, src)`: additionally rejects a sentinel `where` (first
check in the source), then as `splice_append` but hooking as next sibling. -/
def spliceAfterOp (t : FTree) (fuel w s : Nat) : Except TreeError FTree :=
  if isRoot t.mem w then .error .precondition
  else if isRoot t.mem s then .error .precondition
  else if isChildOf t.mem fuel w s then .error .precondition
  else if w = s then .error .precondition
  else .ok ⟨hookAsNextSibling (unhook t.mem s) s w, t.sizeM, t.nextIdx⟩

/-- `splice_before(where, src)`. -/
def spliceBeforeOp (t : FTree) (fuel w s : Nat) : Except TreeError FTree :=
  if isRoot t.mem w then .error .precondition
  else if isRoot t.mem s then .error .precondition
  else if isChildOf t.mem fuel w s then .error .precondition
  else if w = s then .error .precondition
  else .ok ⟨hookAsPrevSibling (unhook t.mem s) s w, t.sizeM, t.nextIdx⟩

/-- The loop of `erase_children_M_` (the recursive variant compiled without
`TRL_FLEX_TREE_NO_RECURSION`): recurse into children, save `iter->next_M_`,
unhook and free `iter`, stop when the freed node reports no next.  Returns the
new memory and `nodes_affected__`.  (Deallocation has no observable effect on
the fields of the remaining structure, so freed records simply stay in the
arena, unreachable.) -/
def eraseChildrenAux (m : Mem) : Nat → Nat → Mem × Nat
  | 0, _ => (m, 0)
  | fuel + 1, iter =>
    let r1 := if hasChildren m iter
              then eraseChildrenAux m fuel (m.firstChild iter)
              else (m, 0)
    let iterNext := r1.1.next iter
    let m2 := unhook r1.1 iter
    if ¬ hasNext m2 iter then (m2, r1.2 + 1)
    else
      let r3 := eraseChildrenAux m2 fuel iterNext
      (r3.1, r1.2 + 1 + r3.2)

/-- `erase_children_M_(node)`: start the loop at `node->first_child_M_`. -/
def eraseChildren (m : Mem) (fuel p : Nat) : Mem × Nat :=
  eraseChildrenAux m fuel (m.firstChild p)

/-- `erase(where)`: rejects the sentinel; erases the descendants first
(subtracting their count from `size_M_` — and, as in the source, subtracting
nothing at all for the node itself); computes `std::next(where)` on the
post-descendant-erasure memory; unhooks and frees `where`.  Returns the tree
and the iterator `next__`. -/
def eraseOp (t : FTree) (fuel p : Nat) : Except TreeError (FTree × Nat) :=
  if isRoot t.mem p then .error .precondition
  else
    let r1 := if hasChildren t.mem p
              then
                let r := eraseChildren t.mem fuel p
                (r.1, t.sizeM - r.2)
              else (t.mem, t.sizeM)
    let nxt := preNext r1.1 fuel p
    let m2 := unhook r1.1 p
    .ok (⟨m2, r1.2, t.nextIdx⟩, nxt)

/-- `clear()`: erase every child of the header when `size()` is nonzero. -/
def clearOp (t : FTree) (fuel : Nat) : FTree :=
  if t.sizeM ≠ 0 then
    let r := eraseChildren t.mem fuel 0
    ⟨r.1, t.sizeM - r.2, t.nextIdx⟩
  else t

/-- `maximum_depth()`: a full traversal; whenever the visited node's depth is
nonzero it *overwrites* the running result (`if (depth__) { res__ = depth__; }`
in the source — not a maximum). -/
def maximumDepth (m : Mem) (fuel : Nat) : Nat :=
  (traverse m fuel).foldl
    (fun res p => let d := depthM m fuel p; if d ≠ 0 then d else res) 0

/-- `node_traits::parent` as defined in flex_tree.hpp (lines 1020–1031): after
rejecting the root it returns `IteratorType(ptr__)` — an iterator at the *same*
node. -/
def parentNT (m : Mem) (p : Nat) : Except TreeError Nat :=
  if isRoot m p then .error .precondition
  else .ok p

/-- `node_traits::parent` as defined in node_traits.hpp (lines 145–154): after
rejecting the root it returns an iterator at `ptr__->parent_M_`. -/
def parentNTHdr (m : Mem) (p : Nat) : Except TreeError Nat :=
  if isRoot m p then .error .precondition
  else .ok (m.parent p)

/-- Whether an operation signalled `PreconditionViolation`. -/
def isPrecondErr {α : Type} : Except TreeError α → Bool
  | .error .precondition => true
  | .ok _ => false

/-- Modelled from the spec's words, for comparison with `maximumDepth`:
"the maximum of the per-node depth over all nodes in the tree, computed by a
full scan" (0 on an empty tree). -/
def specMaximumDepth (m : Mem) (fuel : Nat) : Nat :=
  ((traverse m fuel).map (depthM m fuel)).foldl max 0

/-! ### Concrete trees used by the counterexamples and witnesses -/

/-- The nested literal of spec Scenario A:
`[1, 2, [3, [4, [5, [6,7,8]], 9, 10]]]`. -/
def litA : List LTree :=
  [.node 1 [], .node 2 [],
   .node 3 [.node 4 [.node 5 [.node 6 [], .node 7 [], .node 8 []],
                     .node 9 [], .node 10 []]]]

/-- Scenario A's tree.  Node indices (post-order allocation):
value 1 ↦ 1, value 2 ↦ 2, values 6,7,8 ↦ 3,4,5, value 5 ↦ 6, value 9 ↦ 7,
value 10 ↦ 8, value 4 ↦ 9, value 3 ↦ 10. -/
def tA : FTree := fromLiteral litA

/-- A single top-level node holding 1 (index 1). -/
def tOne : FTree := fromLiteral [.node 1 []]

/-- Two top-level leaves 1, 2 (indices 1, 2). -/
def tPair : FTree := fromLiteral [.node 1 [], .node 2 []]

/-- `[1, [2]], 3`: value 2 ↦ index 1 (child), value 1 ↦ index 2, value 3 ↦
index 3. -/
def tNest : FTree := fromLiteral [.node 1 [.node 2 []], .node 3 []]

/-- A chain `1 → 2 → 3 → 4` followed by the top-level leaf 5:
indices 4,3,2,1 hold values 1,2,3,4 (post-order), index 5 holds 5. -/
def tDeep : FTree :=
  fromLiteral [.node 1 [.node 2 [.node 3 [.node 4 []]]], .node 5 []]

/-- Re-hook `p` at the position it held in `m0`: the matching primitive is
`hook_as_first_child` of its old parent when it was a first child
(per `is_first_child_M_`), else `hook_as_next_sibling` of its old previous
sibling. -/
def rehookAtOriginal (m0 m1 : Mem) (p : Nat) : Mem :=
  if isFirstChild m0 p then hookAsFirstChild m1 p (m0.parent p)
  else hookAsNextSibling m1 p (m0.prev p)

/-- The data-model invariants (spec §3) localised around a non-sentinel node
`p`: the parent link is proper; a child counter of 1 means `p` is the sole
child with self-looped sibling links; otherwise the counter is positive, `p`
has at least one real neighbour, real neighbours are siblings (same parent)
doubly linked to `p` and distinct from the parent, a self-looped `prev`/`next`
means `p` is the parent's first/last child, and the two neighbours of a middle
child differ. -/
def UnhookRehookWF (m : Mem) (p : Nat) : Prop :=
  p ≠ m.parent p ∧
  (m.childCount (m.parent p) = 1 →
     m.prev p = p ∧ m.next p = p ∧
     m.firstChild (m.parent p) = p ∧ m.lastChild (m.parent p) = p) ∧
  (m.childCount (m.parent p) ≠ 1 →
     m.childCount (m.parent p) ≠ 0 ∧
     (m.prev p ≠ p ∨ m.next p ≠ p) ∧
     (m.prev p ≠ p →
        m.parent (m.prev p) = m.parent p ∧ m.next (m.prev p) = p ∧
        m.prev p ≠ m.parent p) ∧
     (m.next p ≠ p →
        m.parent (m.next p) = m.parent p ∧ m.prev (m.next p) = p ∧
        m.next p ≠ m.parent p) ∧
     (m.prev p = p → m.firstChild (m.parent p) = p) ∧
     (m.next p = p →
        m.lastChild (m.parent p) = p ∧ m.firstChild (m.parent p) ≠ m.parent p) ∧
     (m.prev p ≠ p → m.next p ≠ p → m.prev p ≠ m.next p))

/-- Node `p` reaches a top-level node (a node whose parent is the sentinel)
after `k` parent-hops, every hop staying strictly below the sentinel. -/
inductive ParentChain (m : Mem) : Nat → Nat → Prop where
  | top (p : Nat) : isRoot m p = false → isRoot m (m.parent p) = true →
      ParentChain m p 0
  | step (p k : Nat) : isRoot m p = false → isRoot m (m.parent p) = false →
      ParentChain m (m.parent p) k → ParentChain m p (k + 1)

/-! ## Theorems -/

/-- C7: building from the nested literal `[1, 2, [3, [4, [5, [6,7,8]], 9, 10]]]`
yields a tree whose depth-first pre-order traversal visits the values
1,…,10 in exactly that order, and whose `size()` is 10 (which moreover equals
the number of nodes reached). -/
theorem scenarioA_preorder_and_size :
    traverseValues tA.mem 16 = [1, 2, 3, 4, 5, 6, 7, 8, 9, 10] ∧
    tA.sizeM = 10 ∧ reachCount tA.mem 16 = 10 := by
  decide

/-- C1 (failing evaluation): after `erase` of the only node of the single-node
tree `{1}`, `size()` still reports 1 while a full traversal reaches 0 nodes —
`erase` subtracts only the descendant count (`erase_children_M_`'s result) and
never decrements `size_M_` for the erased node itself, so the size invariant is
broken by a public operation. -/
theorem erase_breaks_size_invariant :
    (eraseOp tOne 8 1).toOption.map (fun r => (r.1.sizeM, reachCount r.1.mem 8)) =
      some (1, 0) ∧
    tOne.sizeM = 1 ∧ reachCount tOne.mem 8 = 1 := by
  decide

/-- C2 (failing evaluation): erasing the childless first leaf of `{1, 2}`
returns exactly the iterator `std::next` would have produced before the call
(index 2) — but `size()` stays 2 although only one node remains: the decrement
misses the erased node itself (the claim requires descendants *plus the node*,
i.e. 1 here). -/
theorem erase_leaf_size_not_decremented :
    (eraseOp tPair 8 1).toOption.map
      (fun r => (r.1.sizeM, r.2, traverseValues r.1.mem 8)) = some (2, 2, [2]) ∧
    preNext tPair.mem 8 1 = 2 := by
  decide

/-- C3 (counterexample): node 1 of the single-node tree is top-level (its
parent is the sentinel), hence zero parent-hops from a top-level node, yet
`depth_M_` reports 1, not 0 — the walk counts the hop onto the sentinel. -/
theorem depth_of_top_level_is_one :
    tOne.mem.parent 1 = 0 ∧ isRoot tOne.mem 0 = true ∧ isRoot tOne.mem 1 = false ∧
    depthM tOne.mem 8 1 = 1 := by
  decide

/-- C4 (failing evaluation): on the tree `[1,[2,[3,[4]]]], 5` the deepest node
(value 4) has per-node depth 4, but `maximum_depth()` returns 1 — the loop body
`if (depth__) { res__ = depth__; }` keeps the depth of the *last* visited node
with nonzero depth, not the maximum.  On the empty tree it does return 0. -/
theorem maximum_depth_not_maximum :
    maximumDepth tDeep.mem 16 = 1 ∧ specMaximumDepth tDeep.mem 16 = 4 ∧
    maximumDepth (fromLiteral []).mem 8 = 0 := by
  decide

/-- C5 (failing evaluation): flex_tree.hpp's `node_traits::parent` applied to
the non-sentinel node at index 1 (whose parent is index 2) returns an iterator
at index 1 itself — `return IteratorType(ptr__);` forgets `->parent_M_` — while
the node_traits.hpp version of the very same function returns index 2; on the
sentinel both signal the error. -/
theorem node_traits_parent_returns_same_node :
    (parentNT tNest.mem 1).toOption = some 1 ∧ tNest.mem.parent 1 = 2 ∧
    (parentNTHdr tNest.mem 1).toOption = some 2 ∧
    isPrecondErr (parentNT tNest.mem 0) = true := by
  decide

/-- C6 (counterexample): `splice_after(where = end(), src = node 1)` on the
tree `{1, 2}` raises `PreconditionViolation` although none of the claim's three
conditions holds: the source is not the sentinel, the destination (the
sentinel, index 0) differs from the source and is not a descendant of it.
`splice_after`/`splice_before` additionally reject a sentinel destination. -/
theorem splice_after_rejects_sentinel_destination :
    isPrecondErr (spliceAfterOp tPair 8 0 1) = true ∧
    isRoot tPair.mem 1 = false ∧ isChildOf tPair.mem 8 0 1 = false ∧
    (0 : Nat) ≠ 1 := by
  decide

/-- Claim C6 (amended): the splice family never touches `size_M_` and never
allocates; the result memory is exactly an `unhook` followed by the matching
hook primitive; `splice_append`/`splice_prepend` raise precisely when the
source is the sentinel, the destination lies on the source's strict ancestor
walk (`is_child_of`), or destination equals source; `splice_after` and
`splice_before` additionally raise when the destination is the sentinel.  In a
raising case nothing has been mutated (the checks precede the unhook). -/
theorem splice_error_conditions (t : FTree) (fuel w s : Nat) :
    (isPrecondErr (spliceAfterOp t fuel w s) = true ↔
      (isRoot t.mem w = true ∨ isRoot t.mem s = true ∨
       isChildOf t.mem fuel w s = true ∨ w = s)) ∧
    (isPrecondErr (spliceBeforeOp t fuel w s) = true ↔
      (isRoot t.mem w = true ∨ isRoot t.mem s = true ∨
       isChildOf t.mem fuel w s = true ∨ w = s)) ∧
    (isPrecondErr (spliceAppendOp t fuel w s) = true ↔
      (isRoot t.mem s = true ∨ isChildOf t.mem fuel w s = true ∨ w = s)) ∧
    (isPrecondErr (splicePrependOp t fuel w s) = true ↔
      (isRoot t.mem s = true ∨ isChildOf t.mem fuel w s = true ∨ w = s)) ∧
    (∀ t', spliceAfterOp t fuel w s = Except.ok t' →
      t'.sizeM = t.sizeM ∧ t'.nextIdx = t.nextIdx ∧
      t'.mem = hookAsNextSibling (unhook t.mem s) s w) ∧
    (∀ t', spliceBeforeOp t fuel w s = Except.ok t' →
      t'.sizeM = t.sizeM ∧ t'.nextIdx = t.nextIdx ∧
      t'.mem = hookAsPrevSibling (unhook t.mem s) s w) ∧
    (∀ t', spliceAppendOp t fuel w s = Except.ok t' →
      t'.sizeM = t.sizeM ∧ t'.nextIdx = t.nextIdx ∧
      t'.mem = hookAsLastChild (unhook t.mem s) s w) ∧
    (∀ t', splicePrependOp t fuel w s = Except.ok t' →
      t'.sizeM = t.sizeM ∧ t'.nextIdx = t.nextIdx ∧
      t'.mem = hookAsFirstChild (unhook t.mem s) s w) := by
  unfold spliceAfterOp spliceBeforeOp spliceAppendOp splicePrependOp
  refine ⟨?_, ?_, ?_, ?_, ?_, ?_, ?_, ?_⟩ <;> split_ifs <;> simp_all [isPrecondErr]

/-- Claim C10: incrementing a depth-first pre-order iterator positioned at the
sentinel (`end()`) descends into the header's first child — `begin()` — when
the tree has top-level nodes; on an empty tree the header's self-loops keep the
iterator at the sentinel.  The only hypotheses are the header's self-loop
conventions (`parent`, and for the empty case `next`, pointing to itself). -/
theorem preorder_increment_at_end (m : Mem) (fuel : Nat)
    (hroot : m.parent 0 = 0) :
    (hasChildren m 0 = true → preNext m fuel 0 = beginIt m) ∧
    (hasChildren m 0 = false → m.next 0 = 0 → preNext m fuel 0 = 0) := by
  constructor
  · intro h
    simp [preNext, h, beginIt]
  · intro h hn
    have hcl : climbLast m fuel 0 = 0 := by
      cases fuel with
      | zero => rfl
      | succ f => simp [climbLast, isRoot, hroot]
    simp [preNext, h, hcl, hn]

/-- Witness for C10: on Scenario A's tree the step from `end()` reaches
`begin()`; on the empty tree it stays at the sentinel. -/
theorem preorder_increment_at_end_witness :
    preNext tA.mem 8 0 = beginIt tA.mem ∧ preNext (fromLiteral []).mem 8 0 = 0 :=
  ⟨(preorder_increment_at_end tA.mem 8 (by decide)).1 (by decide),
   (preorder_increment_at_end (fromLiteral []).mem 8 (by decide)).2 (by decide)
     (by decide)⟩

/-- Claim C3 (amended): for a node whose ancestor walk reaches a top-level node
after `k` hops, `depth_M_` (hence `node_traits::depth`) returns `k + 1` — one
more than the claim's parent-hop count, because the loop also counts the hop
onto the sentinel; in particular every top-level node has depth 1. -/
theorem depth_counts_hops_to_sentinel (m : Mem) (p k : Nat)
    (h : ParentChain m p k) :
    ∀ fuel, k + 1 ≤ fuel → depthM m fuel p = k + 1 := by
  induction h with
  | top p hp hq =>
    intro fuel hf
    match fuel, hf with
    | f + 1, _ =>
      have h2 : depthM m f (m.parent p) = 0 := by
        cases f with
        | zero => rfl
        | succ f2 => simp [depthM, hq]
      simp [depthM, hp, h2]
  | step p k hp hq _ ih =>
    intro fuel hf
    match fuel, hf with
    | f + 1, hf =>
      have h2 : depthM m f (m.parent p) = k + 1 := ih f (by omega)
      simp [depthM, hp, h2]

/-- Witness for C3's amended claim: the depth-1 (one hop to top level) child
node of `tNest` reports depth 2. -/
theorem depth_counts_hops_to_sentinel_witness :
    depthM tNest.mem 8 1 = 2 :=
  depth_counts_hops_to_sentinel tNest.mem 1 1
    (ParentChain.step 1 0 (by decide) (by decide)
      (ParentChain.top (tNest.mem.parent 1) (by decide) (by decide)))
    8 (by omega)

/-- Claim C9: `append`/`prepend` perform no precondition check at all (they are
total), so the sentinel is accepted as target: `append(end(), v)` makes the new
node the header's last child and `prepend(end(), v)` makes it the header's
first child, i.e. the returned iterator is the new `begin()`; both bump
`size_M_` by exactly 1.  Hypotheses: the allocator hands out an index distinct
from the header and from the neighbour being linked, and the end-of-chain
self-loops of the data model hold at the header's first/last child. -/
theorem append_prepend_accept_sentinel (t : FTree) (v : Nat)
    (hf : t.nextIdx ≠ 0)
    (hL : t.mem.firstChild 0 ≠ 0 →
      t.nextIdx ≠ t.mem.lastChild 0 ∧
      t.mem.next (t.mem.lastChild 0) = t.mem.lastChild 0)
    (hF : t.mem.firstChild 0 ≠ 0 →
      t.nextIdx ≠ t.mem.firstChild 0 ∧
      t.mem.prev (t.mem.firstChild 0) = t.mem.firstChild 0) :
    ((appendOp t 0 v).2 = t.nextIdx ∧
     (appendOp t 0 v).1.sizeM = t.sizeM + 1 ∧
     (appendOp t 0 v).1.mem.lastChild 0 = t.nextIdx ∧
     (appendOp t 0 v).1.mem.parent t.nextIdx = 0 ∧
     (appendOp t 0 v).1.mem.value t.nextIdx = v) ∧
    ((prependOp t 0 v).2 = t.nextIdx ∧
     (prependOp t 0 v).1.sizeM = t.sizeM + 1 ∧
     beginIt (prependOp t 0 v).1.mem = t.nextIdx ∧
     (prependOp t 0 v).1.mem.parent t.nextIdx = 0 ∧
     (prependOp t 0 v).1.mem.value t.nextIdx = v) := by
  have hf' : (0 : Nat) ≠ t.nextIdx := fun hh => hf hh.symm
  by_cases hch : t.mem.firstChild 0 = 0
  · constructor
    · refine ⟨rfl, rfl, ?_, ?_, ?_⟩ <;>
        simp [appendOp, hookAsLastChild, hasChildren, wAlloc, updateNewOnlyChild,
          updateNewChild, wCCInc, wParent, wFirst, wLast, entangle, wNext, wPrev,
          Function.update_noteq hf', Function.update_same, hch, hf]
    · refine ⟨rfl, rfl, ?_, ?_, ?_⟩ <;>
        simp [prependOp, beginIt, hookAsFirstChild, hasChildren, wAlloc,
          updateNewOnlyChild, updateNewChild, wCCInc, wParent, wFirst, wLast,
          entangle, wNext, wPrev, Function.update_noteq hf', Function.update_same,
          hch, hf]
  · obtain ⟨hL1, hL2⟩ := hL hch
    obtain ⟨hF1, hF2⟩ := hF hch
    constructor
    · refine ⟨rfl, rfl, ?_, ?_, ?_⟩ <;>
        simp [appendOp, hookAsLastChild, hasChildren, hasNext, wAlloc,
          updateNewLastChild, updateNewChild, wCCInc, wParent, wFirst, wLast,
          entangle, wNext, wPrev, Function.update_noteq hf',
          Function.update_noteq hL1, Function.update_noteq (Ne.symm hL1),
          Function.update_same, hch, hf, hL2]
    · refine ⟨rfl, rfl, ?_, ?_, ?_⟩ <;>
        simp [prependOp, beginIt, hookAsFirstChild, hasChildren, hasPrev, wAlloc,
          updateNewFirstChild, updateNewChild, wCCInc, wParent, wFirst, wLast,
          entangle, wNext, wPrev, Function.update_noteq hf',
          Function.update_noteq hF1, Function.update_noteq (Ne.symm hF1),
          Function.update_same, hch, hf, hF2]

/-- Witness for C9 on the two-leaf tree: `append(end(), 9)` lands as the last
top-level child, `prepend(end(), 9)` becomes the new `begin()`, size grows. -/
theorem append_prepend_accept_sentinel_witness :
    (appendOp tPair 0 9).1.mem.lastChild 0 = tPair.nextIdx ∧
    (appendOp tPair 0 9).1.sizeM = tPair.sizeM + 1 ∧
    beginIt (prependOp tPair 0 9).1.mem = tPair.nextIdx :=
  ⟨(append_prepend_accept_sentinel tPair 9 (by decide) (by decide) (by decide)).1.2.2.1,
   (append_prepend_accept_sentinel tPair 9 (by decide) (by decide) (by decide)).1.2.1,
   (append_prepend_accept_sentinel tPair 9 (by decide) (by decide) (by decide)).2.2.2.1⟩

lemma roundtrip_only_child (m : Mem) (p q : Nat)
    (hq : m.parent p = q) (hpq : p ≠ q)
    (hcc : m.childCount q = 1) (hpv : m.prev p = p) (hnx : m.next p = p)
    (hfc : m.firstChild q = p) (hlc : m.lastChild q = p) :
    rehookAtOriginal m (unhook m p) p = m := by
  have hroot : p ≠ m.parent p := hq ▸ hpq
  ext j <;>
    simp [rehookAtOriginal, unhook, isOnlyChild, isFirstChild, hasPrev, hasNext,
      hasChildren, unhookAsOnlyChild, updateDiscardOnlyChild,
      updateDiscardNotifyNeighbours, hookAsFirstChild, updateNewOnlyChild,
      updateNewChild, wFirst, wLast, wCCDec, wCCInc, wParent, wNext, wPrev,
      hq, hcc, hpv, hnx, Function.update_apply] <;>
    by_cases hj : j = p <;> by_cases hj2 : j = q <;>
      simp_all [hfc, hlc, hcc]

set_option maxHeartbeats 3200000 in
lemma roundtrip_middle_child (m : Mem) (p q pv nx : Nat)
    (hq : m.parent p = q) (hpq : p ≠ q)
    (hcc1 : m.childCount q ≠ 1) (hcc0 : m.childCount q ≠ 0)
    (hpv : m.prev p = pv) (hnx : m.next p = nx)
    (hpvp : pv ≠ p) (hnxp : nx ≠ p) (hpvnx : pv ≠ nx)
    (hpvq2 : pv ≠ q) (hnxq2 : nx ≠ q)
    (hpvq : m.parent pv = q) (hpvn : m.next pv = p)
    (hnxq : m.parent nx = q) (hnxpv : m.prev nx = p) :
    rehookAtOriginal m (unhook m p) p = m := by
  have hccval : m.childCount q - 1 + 1 = m.childCount q := by omega
  ext j <;>
    simp [rehookAtOriginal, unhook, isOnlyChild, isFirstChild, isLastChild, hasPrev,
      hasNext, hasChildren, unhookAsRegularChild, updateDiscardNotifyNeighbours,
      hookAsNextSibling, hookAsLastChild, insertBetween, entangle, updateNewChild,
      updateNewLastChild, wFirst, wLast, wCCDec, wCCInc, wParent, wNext, wPrev,
      hq, hcc1, hpv, hnx, hpvp, hnxp, hpvnx, hpvq, hpvn, hnxq, hnxpv,
      Ne.symm hpvp, Ne.symm hnxp, Ne.symm hpvnx, Ne.symm hpvq2, Ne.symm hnxq2,
      Ne.symm hpq, hpq, hpvq2, hnxq2,
      Function.update_apply] <;>
    by_cases hj : j = p <;> by_cases hj2 : j = q <;>
      by_cases hj3 : j = pv <;> by_cases hj4 : j = nx <;>
      simp_all [hccval]

set_option maxHeartbeats 1600000 in
lemma roundtrip_last_child (m : Mem) (p q pv : Nat)
    (hq : m.parent p = q) (hpq : p ≠ q)
    (hcc1 : m.childCount q ≠ 1) (hcc0 : m.childCount q ≠ 0)
    (hpv : m.prev p = pv) (hnx : m.next p = p)
    (hpvp : pv ≠ p) (hpvq2 : pv ≠ q)
    (hpvq : m.parent pv = q) (hpvn : m.next pv = p)
    (hlc : m.lastChild q = p) (hfcq : m.firstChild q ≠ q) :
    rehookAtOriginal m (unhook m p) p = m := by
  have hccval : m.childCount q - 1 + 1 = m.childCount q := by omega
  ext j <;>
    simp [rehookAtOriginal, unhook, isOnlyChild, isFirstChild, isLastChild, hasPrev,
      hasNext, hasChildren, unhookAsLastChild, updateDiscardLastChild,
      updateDiscardNotifyNeighbours, hookAsNextSibling, hookAsLastChild, entangle,
      updateNewChild, updateNewLastChild, wFirst, wLast, wCCDec, wCCInc, wParent,
      wNext, wPrev, hq, hcc1, hpv, hnx, hpvp, hpvq, hpvn, hlc, hfcq,
      Ne.symm hpvp, Ne.symm hpvq2, Ne.symm hpq, hpq, hpvq2,
      Function.update_apply] <;>
    by_cases hj : j = p <;> by_cases hj2 : j = q <;> by_cases hj3 : j = pv <;>
      simp_all [hccval]

set_option maxHeartbeats 1600000 in
lemma roundtrip_first_child (m : Mem) (p q nx : Nat)
    (hq : m.parent p = q) (hpq : p ≠ q)
    (hcc1 : m.childCount q ≠ 1) (hcc0 : m.childCount q ≠ 0)
    (hpv : m.prev p = p) (hnx : m.next p = nx)
    (hnxp : nx ≠ p) (hnxq2 : nx ≠ q)
    (hnxq : m.parent nx = q) (hnxpv : m.prev nx = p)
    (hfc : m.firstChild q = p) :
    rehookAtOriginal m (unhook m p) p = m := by
  have hccval : m.childCount q - 1 + 1 = m.childCount q := by omega
  ext j <;>
    simp [rehookAtOriginal, unhook, isOnlyChild, isFirstChild, hasPrev,
      hasNext, hasChildren, unhookAsFirstChild, updateDiscardFirstChild,
      updateDiscardNotifyNeighbours, hookAsFirstChild, entangle,
      updateNewChild, updateNewFirstChild, wFirst, wLast, wCCDec, wCCInc, wParent,
      wNext, wPrev, hq, hcc1, hpv, hnx, hnxp, hnxq2, hnxq, hnxpv, hfc,
      Ne.symm hnxp, Ne.symm hnxq2, Ne.symm hpq, hpq,
      Function.update_apply] <;>
    by_cases hj : j = p <;> by_cases hj2 : j = q <;> by_cases hj3 : j = nx <;>
      simp_all [hccval]

/-- Claim C8: for every arena and node satisfying the data-model invariants
around the node, unhooking it (with its subtree — the subtree's internal links
are untouched by `unhook_M_`) and re-hooking it at its original position via
the matching hook primitive restores the memory *exactly*, and with it every
full traversal sequence.  The proof covers the four structural positions of the
source's `unhook_M_` case split. -/
theorem unhook_rehook_restores (m : Mem) (p : Nat) (h : UnhookRehookWF m p) :
    rehookAtOriginal m (unhook m p) p = m ∧
    ∀ fuel, traverseValues (rehookAtOriginal m (unhook m p) p) fuel =
      traverseValues m fuel := by
  obtain ⟨hpq, honly, hmulti⟩ := h
  have main : rehookAtOriginal m (unhook m p) p = m := by
    by_cases hcc : m.childCount (m.parent p) = 1
    · obtain ⟨h1, h2, h3, h4⟩ := honly hcc
      exact roundtrip_only_child m p (m.parent p) rfl hpq hcc h1 h2 h3 h4
    · obtain ⟨hcc0, hor, hprev, hnext, hfirst, hlast, hdist⟩ := hmulti hcc
      by_cases hpv : m.prev p = p
      · have hnx : m.next p ≠ p := hor.resolve_left (fun hh => hh hpv)
        obtain ⟨ha, hb, hc⟩ := hnext hnx
        exact roundtrip_first_child m p (m.parent p) (m.next p) rfl hpq hcc hcc0 hpv rfl
          hnx hc ha hb (hfirst hpv)
      · by_cases hnx : m.next p = p
        · obtain ⟨ha, hb, hc⟩ := hprev hpv
          obtain ⟨hl1, hl2⟩ := hlast hnx
          exact roundtrip_last_child m p (m.parent p) (m.prev p) rfl hpq hcc hcc0 rfl hnx
            hpv hc ha hb hl1 hl2
        · obtain ⟨ha, hb, hc⟩ := hprev hpv
          obtain ⟨hd, he, hf2⟩ := hnext hnx
          exact roundtrip_middle_child m p (m.parent p) (m.prev p) (m.next p) rfl hpq hcc
            hcc0 rfl rfl hpv hnx (hdist hpv hnx) hc hf2 ha hb hd he
  exact ⟨main, fun fuel => by rw [main]⟩

set_option maxHeartbeats 1600000 in
/-- Witness for C8: unhooking the middle child (index 4, value 7) of Scenario
A's tree and re-hooking it restores the memory and the traversal. -/
theorem unhook_rehook_restores_witness :
    rehookAtOriginal tA.mem (unhook tA.mem 4) 4 = tA.mem ∧
    traverseValues (rehookAtOriginal tA.mem (unhook tA.mem 4) 4) 16 =
      traverseValues tA.mem 16 :=
  ⟨(unhook_rehook_restores tA.mem 4 (by unfold UnhookRehookWF; decide)).1,
   (unhook_rehook_restores tA.mem 4 (by unfold UnhookRehookWF; decide)).2 16⟩

end Treelib
